import Mathlib

/-!
Verification of the Core-Service repository (configuration/plugin registry
and container discovery subsystems).

Python dictionaries are modelled as insertion-ordered association lists.
Configuration documents in this service are at most two levels deep
(an entry is a map whose values are scalars, lists of strings, or one
nested map), so values are modelled with a two-level type: `Leaf` for
scalars and string lists, `Val` for a leaf or a nested map of leaves.
Fallible dictionary access (Python `d[k]`, raising `KeyError`) is
modelled with `Except String`.
-/

namespace CoreService

/-- Scalar or list-of-strings value of a configuration field
(YAML/JSON strings and string lists, the shapes this service stores). -/
inductive Leaf where
  | s : String → Leaf
  | strs : List String → Leaf
deriving DecidableEq, Repr

/-- A flat mapping from keys to leaf values (an inner Python dict). -/
abbrev LDict := List (String × Leaf)

/-- A value of a top-level document field: a leaf or a nested mapping. -/
inductive Val where
  | leaf : Leaf → Val
  | dict : LDict → Val
deriving DecidableEq, Repr

/-- A top-level Python dict (plugin record, global-config document, patch). -/
abbrev Dict := List (String × Val)

/-- Python `k in d` / `d.get(k)`: first binding of `k`, scanning in order. -/
def lookup {α : Type} (m : List (String × α)) (k : String) : Option α :=
  match m with
  | [] => none
  | (k', v') :: rest => if k' = k then some v' else lookup rest k

/-- Python `d[k] = v`: replace the existing binding in place (dicts keep
insertion order), or append a new binding at the end. -/
def setKey {α : Type} (m : List (String × α)) (k : String) (v : α) :
    List (String × α) :=
  match m with
  | [] => [(k, v)]
  | (k', v') :: rest =>
      if k' = k then (k', v) :: rest else (k', v') :: setKey rest k v

/-- Python `d[k]` on a top-level dict: the value, or a `KeyError`. -/
def dget (m : Dict) (k : String) : Except String Val :=
  match lookup m k with
  | some v => Except.ok v
  | none => Except.error ("KeyError: " ++ k)

/-- Python `d[k]` on an inner dict: the leaf value, or a `KeyError`. -/
def lget (m : LDict) (k : String) : Except String Leaf :=
  match lookup m k with
  | some v => Except.ok v
  | none => Except.error ("KeyError: " ++ k)

theorem lookup_setKey_self {α : Type} (m : List (String × α)) (k : String)
    (v : α) : lookup (setKey m k v) k = some v := by
  induction m with
  | nil => simp [setKey, lookup]
  | cons hd tl ih =>
      obtain ⟨k', v'⟩ := hd
      by_cases h : k' = k
      · simp [setKey, lookup, h]
      · simp [setKey, lookup, h, ih]

theorem lookup_setKey_ne {α : Type} (m : List (String × α)) (k j : String)
    (v : α) (h : k ≠ j) : lookup (setKey m k v) j = lookup m j := by
  induction m with
  | nil => simp [setKey, lookup, h]
  | cons hd tl ih =>
      obtain ⟨k', v'⟩ := hd
      by_cases hk : k' = k
      · subst hk
        simp [setKey, lookup, h]
      · simp [setKey, lookup, hk, ih]

/-! ## IP address validation (`plugins.py`, `validate_ip_addresses`)

`ipaddress.ip_address` is modelled on IPv4 dotted-quad textual forms
(four dot-separated decimal octets, each 0–255, no leading zeros). The
IPv6 textual forms the real library also accepts are orthogonal to every
claim considered here and are outside the model. -/

/-- Split a character list at every occurrence of a separator, keeping
empty pieces (the behaviour of Python `str.split(sep)`). -/
def splitOnChar (sep : Char) (cs : List Char) : List (List Char) :=
  match cs with
  | [] => [[]]
  | c :: rest =>
      let r := splitOnChar sep rest
      if c = sep then [] :: r
      else
        match r with
        | [] => [[c]]
        | g :: gs => (c :: g) :: gs

/-- ASCII decimal digit test. -/
def isDigitChar (c : Char) : Bool :=
  48 ≤ c.toNat && c.toNat ≤ 57

/-- Decimal value of a digit string (left fold, as `int()` computes it). -/
def digitsToNat (cs : List Char) : Nat :=
  cs.foldl (fun a c => a * 10 + (c.toNat - 48)) 0

/-- One dotted-quad octet as accepted by `ipaddress`: nonempty, at most
three ASCII digits, no leading zero, value at most 255. -/
def octet_ok (cs : List Char) : Bool :=
  !cs.isEmpty && cs.length ≤ 3 && cs.all isDigitChar &&
  !(decide (cs.length > 1) && cs.head? = some '0') &&
  digitsToNat cs ≤ 255

/-- Model of `ipaddress.ip_address` on a string: a valid IPv4 dotted quad.
A string containing a `/` (CIDR notation) is rejected, as in the library. -/
def ip_address_ok (s : String) : Bool :=
  match splitOnChar '.' s.data with
  | [a, b, c, d] => octet_ok a && octet_ok b && octet_ok c && octet_ok d
  | _ => false

/-- `plugins.validate_ip_addresses`: iterates the list, constructing an
`ipaddress.ip_address` from each entry; the first `ValueError` makes the
whole call return `False`, otherwise it returns `True`. -/
def validate_ip_addresses (ip_addresses : List String) : Bool :=
  match ip_addresses with
  | [] => true
  | a :: rest =>
      if ip_address_ok a then validate_ip_addresses rest else false

/-- Numeric value of an IPv4 dotted quad (0 when the shape is wrong);
used only to state host-bit conditions for networks. -/
def ipv4Value (s : String) : Nat :=
  match splitOnChar '.' s.data with
  | [a, b, c, d] =>
      ((digitsToNat a * 256 + digitsToNat b) * 256 + digitsToNat c) * 256 +
        digitsToNat d
  | _ => 0

/-- Modelled from the spec: membership in the class of strings the spec
calls "an IP address or an IP network (CIDR)" — what
`ipaddress.ip_network` (strict, the default) accepts: a bare address, or
`address/prefix` with a decimal prefix length at most 32 and all host
bits zero. The repository's source never calls `ip_network`; this
definition exists only to state the spec's acceptance condition. -/
def ip_network_ok (s : String) : Bool :=
  match splitOnChar '/' s.data with
  | [addr] => ip_address_ok (String.mk addr)
  | [addr, plen] =>
      ip_address_ok (String.mk addr) && !plen.isEmpty &&
      plen.all isDigitChar &&
      (digitsToNat plen ≤ 32 &&
        ipv4Value (String.mk addr) % 2 ^ (32 - digitsToNat plen) = 0)
  | _ => false

/-! ## Plugin registry (`plugins.py`, class `PluginConfig`)

The in-memory collection `self.config` is a list of plugin records
(`Dict`s). Each mutating operation returns its boolean result, the
collection after the call, and the document handed to `yaml.dump`
(`none` when the operation returned before reaching the dump). The
success path of the file write is modelled; an `OSError` raised by the
write itself is environment-dependent and outside the model. -/

namespace PluginConfig

/-- Outcome of a `PluginConfig` mutation: the returned boolean, the
in-memory collection afterwards, and what (if anything) was dumped to
the YAML file. -/
structure OpResult where
  ok : Bool
  st : List Dict
  written : Option (List Dict)
deriving DecidableEq, Repr

/-- The duplicate-name scan at the top of `register`: compares each
existing record's `name` against the candidate's `name`. -/
def findDup (st : List Dict) (config : Dict) : Except String Bool :=
  match st with
  | [] => Except.ok false
  | e :: rest =>
      match dget e "name", dget config "name" with
      | Except.error er, _ => Except.error er
      | Except.ok _, Except.error er => Except.error er
      | Except.ok en, Except.ok cn =>
          if en = cn then Except.ok true else findDup rest config

/-- Coerce a record's `webhook` field to an inner mapping, as subscript
access requires. -/
def asDict (v : Val) : Except String LDict :=
  match v with
  | Val.dict m => Except.ok m
  | Val.leaf _ => Except.error "TypeError: value is not a dict"

/-- Coerce a webhook's `allowed-ip` field to a list of strings (the
shape the wire and storage formats guarantee for this field). -/
def asStrList (v : Leaf) : Except String (List String) :=
  match v with
  | Leaf.strs l => Except.ok l
  | Leaf.s _ => Except.error "TypeError: value is not a list"

/-- `PluginConfig.register`: reject a duplicate `name`; reject when the
candidate `allowed-ip` list fails validation; otherwise build a fresh
record holding exactly `name`, `description` and a `webhook` mapping of
exactly `url`, `secret` and `allowed-ip` copied from the input, append
it and dump the whole collection. -/
def register (st : List Dict) (config : Dict) : Except String OpResult :=
  match findDup st config with
  | Except.error er => Except.error er
  | Except.ok true => Except.ok { ok := false, st := st, written := none }
  | Except.ok false =>
    match dget config "webhook" with
    | Except.error er => Except.error er
    | Except.ok whv =>
      match asDict whv with
      | Except.error er => Except.error er
      | Except.ok wh =>
        match lget wh "allowed-ip" with
        | Except.error er => Except.error er
        | Except.ok ipsLeaf =>
          match asStrList ipsLeaf with
          | Except.error er => Except.error er
          | Except.ok ips =>
            if !validate_ip_addresses ips then
              Except.ok { ok := false, st := st, written := none }
            else
              match dget config "name", dget config "description" with
              | Except.error er, _ => Except.error er
              | Except.ok _, Except.error er => Except.error er
              | Except.ok n, Except.ok d =>
                match lget wh "url", lget wh "secret" with
                | Except.error er, _ => Except.error er
                | Except.ok _, Except.error er => Except.error er
                | Except.ok u, Except.ok sec =>
                  let entry : Dict :=
                    [("name", n), ("description", d),
                     ("webhook", Val.dict [("url", u), ("secret", sec),
                       ("allowed-ip", ipsLeaf)])]
                  let st2 := st ++ [entry]
                  Except.ok { ok := true, st := st2, written := some st2 }

/-- The in-place mutation `update_config` performs on the matched
record: overwrite `name`, `description`, `webhook.url`,
`webhook.secret` and `webhook.allowed-ip` with the values from the
patch. Returns the mutated record together with the new `allowed-ip`
list (which the caller then validates, after the mutation — the order
the source uses). -/
def update_entry (e nc : Dict) : Except String (Dict × List String) :=
  match dget nc "name" with
  | Except.error er => Except.error er
  | Except.ok n =>
    match dget nc "description" with
    | Except.error er => Except.error er
    | Except.ok d =>
      match dget (setKey (setKey e "name" n) "description" d) "webhook" with
      | Except.error er => Except.error er
      | Except.ok whv =>
        match asDict whv with
        | Except.error er => Except.error er
        | Except.ok wh =>
          match dget nc "webhook" with
          | Except.error er => Except.error er
          | Except.ok ncwhv =>
            match asDict ncwhv with
            | Except.error er => Except.error er
            | Except.ok ncwh =>
              match lget ncwh "url", lget ncwh "secret",
                  lget ncwh "allowed-ip" with
              | Except.error er, _, _ => Except.error er
              | Except.ok _, Except.error er, _ => Except.error er
              | Except.ok _, Except.ok _, Except.error er => Except.error er
              | Except.ok u, Except.ok sec, Except.ok ipsLeaf =>
                match asStrList ipsLeaf with
                | Except.error er => Except.error er
                | Except.ok ips =>
                    Except.ok (setKey (setKey (setKey e "name" n)
                      "description" d) "webhook"
                      (Val.dict (setKey (setKey (setKey wh "url" u)
                        "secret" sec) "allowed-ip" ipsLeaf)), ips)

/-- The search loop of `update_config`: find the first record whose
`name` equals the patch's `plugin_name`, mutate it in place, and report
the collection with the mutation applied plus the new `allowed-ip`
list; `none` when no record matches. -/
def updLoop (nc : Dict) (st : List Dict) :
    Except String (Option (List Dict × List String)) :=
  match st with
  | [] => Except.ok none
  | e :: rest =>
      match dget e "name", dget nc "plugin_name" with
      | Except.error er, _ => Except.error er
      | Except.ok _, Except.error er => Except.error er
      | Except.ok en, Except.ok pn =>
          if en = pn then
            match update_entry e nc with
            | Except.error er => Except.error er
            | Except.ok (e2, ips) => Except.ok (some (e2 :: rest, ips))
          else
            match updLoop nc rest with
            | Except.error er => Except.error er
            | Except.ok none => Except.ok none
            | Except.ok (some (rest2, ips)) =>
                Except.ok (some (e :: rest2, ips))

/-- `PluginConfig.update_config`: locate the record named by
`plugin_name` and overwrite its fields; validate the new `allowed-ip`
only after the in-memory mutation, returning failure without a dump
when validation fails; dump the whole collection on success; failure
(and no mutation) when no record matches. -/
def update_config (st : List Dict) (nc : Dict) : Except String OpResult :=
  match updLoop nc st with
  | Except.error er => Except.error er
  | Except.ok none => Except.ok { ok := false, st := st, written := none }
  | Except.ok (some (st2, ips)) =>
      if !validate_ip_addresses ips then
        Except.ok { ok := false, st := st2, written := none }
      else
        Except.ok { ok := true, st := st2, written := some st2 }

/-- The search loop of `delete`: drop the first record whose `name`
equals the argument (`list.remove` on the matched record removes
exactly that first match, since every earlier record has a different
`name` value); `none` when no record matches. -/
def delLoop (name : String) (st : List Dict) :
    Except String (Option (List Dict)) :=
  match st with
  | [] => Except.ok none
  | e :: rest =>
      match dget e "name" with
      | Except.error er => Except.error er
      | Except.ok en =>
          if en = Val.leaf (Leaf.s name) then
            Except.ok (some rest)
          else
            match delLoop name rest with
            | Except.error er => Except.error er
            | Except.ok none => Except.ok none
            | Except.ok (some rest2) => Except.ok (some (e :: rest2))

/-- `PluginConfig.delete`: remove the first record matching `name` and
dump the remaining collection; failure and no change when absent. -/
def delete (st : List Dict) (name : String) : Except String OpResult :=
  match delLoop name st with
  | Except.error er => Except.error er
  | Except.ok none => Except.ok { ok := false, st := st, written := none }
  | Except.ok (some st2) =>
      Except.ok { ok := true, st := st2, written := some st2 }

end PluginConfig

/-! ## The `safe_url` derivation (`plugins.py`, `load_config`)

String transforms are modelled at the character-list level. `str.lower`
is modelled on ASCII (the non-ASCII case mappings of the real method
are orthogonal to the claims). `urllib.parse.quote` is modelled
faithfully: UTF-8 encode, keep unreserved bytes and `/` (the default
`safe` set), percent-encode the rest with uppercase hex. -/

/-- ASCII case-fold of one character (model of `str.lower`). -/
def lowerChar (c : Char) : Char :=
  if 65 ≤ c.toNat && c.toNat ≤ 90 then Char.ofNat (c.toNat + 32) else c

/-- Model of `str.lower` (ASCII). -/
def lowerStr (s : String) : String :=
  String.mk (s.data.map lowerChar)

/-- Model of `str.replace(" ", "_")`. -/
def underscoreSpaces (s : String) : String :=
  String.mk (s.data.map (fun c => if c = ' ' then '_' else c))

/-- Model of `str.replace("#", "")`. -/
def removeHash (s : String) : String :=
  String.mk (s.data.filter (fun c => c ≠ '#'))

/-- UTF-8 encoding of one Unicode scalar value. -/
def utf8Bytes (c : Char) : List Nat :=
  let n := c.toNat
  if n < 128 then [n]
  else if n < 2048 then [192 + n / 64, 128 + n % 64]
  else if n < 65536 then
    [224 + n / 4096, 128 + (n / 64) % 64, 128 + n % 64]
  else
    [240 + n / 262144, 128 + (n / 4096) % 64, 128 + (n / 64) % 64,
     128 + n % 64]

/-- Uppercase hexadecimal digit. -/
def hexDigit (n : Nat) : Char :=
  if n < 10 then Char.ofNat (48 + n) else Char.ofNat (55 + n)

/-- Bytes `urllib.parse.quote` leaves as-is with the default `safe='/'`:
ASCII letters, digits, `_ . - ~` and `/`. -/
def byteSafe (b : Nat) : Bool :=
  (65 ≤ b && b ≤ 90) || (97 ≤ b && b ≤ 122) || (48 ≤ b && b ≤ 57) ||
  b = 95 || b = 46 || b = 45 || b = 126 || b = 47

/-- One byte of `quote` output: the byte itself, or `%XX`. -/
def quoteByte (b : Nat) : List Char :=
  if byteSafe b then [Char.ofNat b]
  else ['%', hexDigit (b / 16), hexDigit (b % 16)]

/-- Model of `urllib.parse.quote(s)` with the default `safe='/'`. -/
def quoteStr (s : String) : String :=
  String.mk (((s.data.map utf8Bytes).flatten.map quoteByte).flatten)

/-- The `safe_url` computation exactly as `load_config` performs it:
build `/plugin/<name>/<url>`, lowercase it, map spaces to underscores,
strip `#`, then percent-encode. -/
def mk_safe_url (name url : String) : String :=
  let su := "/plugin/" ++ name ++ "/" ++ url
  let su := lowerStr su
  let su := underscoreSpaces su
  let su := removeHash su
  quoteStr su

/-- Modelled from the spec: "a lowercase, space-and-hash-stripped,
percent-encoded path built from `name` and `webhook.url`" — the
composed pipeline the spec describes, stated independently to compare
with the source's sequential computation. -/
def spec_safe_url (name url : String) : String :=
  quoteStr (removeHash (underscoreSpaces
    (lowerStr ("/plugin/" ++ name ++ "/" ++ url))))

namespace PluginConfig

/-- The webhook mapping used by `_validate_plugins`
(`entry.get('webhook', {})`); a missing or non-mapping value yields the
empty mapping, making every subfield check fail. -/
def webhookLDict (e : Dict) : LDict :=
  match lookup e "webhook" with
  | some (Val.dict m) => m
  | _ => []

/-- `_validate_plugins`' per-record check: the required top-level
fields and webhook subfields are present, and `allowed-ip` is a list. -/
def plugin_valid (e : Dict) : Bool :=
  (lookup e "name").isSome && (lookup e "description").isSome &&
  (lookup e "webhook").isSome &&
  (let wh := webhookLDict e
   (lookup wh "url").isSome && (lookup wh "secret").isSome &&
   (match lookup wh "allowed-ip" with
    | some (Leaf.strs _) => true
    | _ => false))

/-- `PluginConfig._validate_plugins`: keep exactly the valid records,
in order (invalid records are dropped with a warning). -/
def validate_plugins (doc : List Dict) : List Dict :=
  doc.filter plugin_valid

/-- A record's `name` (or a webhook's `url`) as the string the f-string
in `load_config` interpolates; the wire and storage formats make these
fields strings. -/
def asStr (v : Val) : Except String String :=
  match v with
  | Val.leaf (Leaf.s s) => Except.ok s
  | _ => Except.error "TypeError: value is not a str"

/-- A leaf as a string. -/
def leafStr (l : Leaf) : Except String String :=
  match l with
  | Leaf.s s => Except.ok s
  | _ => Except.error "TypeError: value is not a str"

/-- The per-record body of `load_config`'s route loop: compute the safe
URL from `name` and `webhook.url` and store it under
`webhook['safe_url']`. -/
def add_safe_url (e : Dict) : Except String Dict :=
  match dget e "name" with
  | Except.error er => Except.error er
  | Except.ok nv =>
    match asStr nv with
    | Except.error er => Except.error er
    | Except.ok n =>
      match dget e "webhook" with
      | Except.error er => Except.error er
      | Except.ok whv =>
        match asDict whv with
        | Except.error er => Except.error er
        | Except.ok wh =>
          match lget wh "url" with
          | Except.error er => Except.error er
          | Except.ok uv =>
            match leafStr uv with
            | Except.error er => Except.error er
            | Except.ok u =>
              let wh2 := setKey wh "safe_url" (Leaf.s (mk_safe_url n u))
              Except.ok (setKey e "webhook" (Val.dict wh2))

/-- The route loop of `load_config`, applied to every surviving record
in order. -/
def addRoutes (st : List Dict) : Except String (List Dict) :=
  match st with
  | [] => Except.ok []
  | e :: rest =>
      match add_safe_url e with
      | Except.error er => Except.error er
      | Except.ok e2 =>
          match addRoutes rest with
          | Except.error er => Except.error er
          | Except.ok rest2 => Except.ok (e2 :: rest2)

/-- `PluginConfig.load_config` on an already-parsed document: drop
invalid records, then compute `safe_url` for every surviving record. -/
def load_config (doc : List Dict) : Except String (List Dict) :=
  addRoutes (validate_plugins doc)

end PluginConfig

/-! ## Global configuration (`config.py`, class `GlobalConfig`)

The document `self.config` is a mapping from section names to sections;
a section is a flat mapping of setting keys to values. `update_config`
evaluates `config['<patch key>']` (a `KeyError` when absent) before
each assignment into `self.config['<section>']['<setting>']`, in source
order, then dumps the whole document; an unrecognized `category`
returns `False` before any assignment or dump. -/

namespace GlobalConfig

/-- Outcome of `GlobalConfig.update_config`: the returned boolean, the
document afterwards, and what (if anything) was dumped to the file. -/
structure GRes where
  ok : Bool
  cfg : Dict
  written : Option Dict
deriving DecidableEq, Repr

/-- One assignment `self.config[sec][key] = v`: the section must exist
and be a mapping. -/
def setSectionKey (cfg : Dict) (sec key : String) (v : Leaf) :
    Except String Dict :=
  match lookup cfg sec with
  | none => Except.error ("KeyError: " ++ sec)
  | some (Val.dict m) => Except.ok (setKey cfg sec (Val.dict (setKey m key v)))
  | some (Val.leaf _) => Except.error "TypeError: section is not a dict"

/-- The sequence of assignments for one recognized category: for each
(section key, patch key) pair in source order, read the patch value
(`KeyError` when absent) and assign it into the section. -/
def setSectionKeys (cfg : Dict) (sec : String)
    (kvs : List (String × String)) (patch : LDict) : Except String Dict :=
  match kvs with
  | [] => Except.ok cfg
  | (secKey, patchKey) :: rest =>
      match lget patch patchKey with
      | Except.error er => Except.error er
      | Except.ok v =>
          match setSectionKey cfg sec secKey v with
          | Except.error er => Except.error er
          | Except.ok cfg2 => setSectionKeys cfg2 sec rest patch

/-- The five recognized category discriminators, in the order the
if/elif chain tests them. -/
def categories : List String :=
  ["azure", "authentication", "teams", "sql", "web"]

/-- The (section key, patch key) pairs each category's branch assigns,
in source order. The `web` branch is special-cased in `update_config`
because it lowercases its value. -/
def sectionKeys (cat : String) : List (String × String) :=
  if cat = "azure" then [("tenant-id", "tenant_id")]
  else if cat = "authentication" then
    [("app-id", "auth_app_id"), ("app-secret", "auth_app_secret"),
     ("salt", "auth_salt"), ("redirect-uri", "auth_redirect_uri"),
     ("admin-group", "auth_admin_group")]
  else if cat = "teams" then
    [("app-id", "teams_app_id"), ("app-secret", "teams_app_secret"),
     ("salt", "teams_salt"), ("user", "teams_user_name"),
     ("public-key", "teams_public_key"), ("private-key", "teams_private_key")]
  else if cat = "sql" then
    [("server", "sql_server"), ("port", "sql_port"),
     ("database", "sql_database"), ("username", "sql_username"),
     ("password", "sql_password"), ("salt", "sql_salt")]
  else []

/-- `GlobalConfig.update_config`: dispatch on `config['category']`;
assign that section's settings from the patch (the `web` branch
lowercases the logging level, which must be a string for `.lower()`);
return `False` with no dump for an unrecognized category; dump the
whole document and return `True` otherwise. -/
def update_config (cfg : Dict) (patch : LDict) : Except String GRes :=
  match lget patch "category" with
  | Except.error er => Except.error er
  | Except.ok cat =>
    if cat = Leaf.s "azure" ∨ cat = Leaf.s "authentication" ∨
        cat = Leaf.s "teams" ∨ cat = Leaf.s "sql" then
      let sec := match cat with
        | Leaf.s s => s
        | _ => ""
      match setSectionKeys cfg sec (sectionKeys sec) patch with
      | Except.error er => Except.error er
      | Except.ok cfg2 =>
          Except.ok { ok := true, cfg := cfg2, written := some cfg2 }
    else if cat = Leaf.s "web" then
      match lget patch "web_logging_level" with
      | Except.error er => Except.error er
      | Except.ok (Leaf.s vs) =>
          match setSectionKey cfg "web" "logging-level"
              (Leaf.s (lowerStr vs)) with
          | Except.error er => Except.error er
          | Except.ok cfg2 =>
              Except.ok { ok := true, cfg := cfg2, written := some cfg2 }
      | Except.ok _ => Except.error "AttributeError: lower"
    else
      Except.ok { ok := false, cfg := cfg, written := none }

/-- The required sections and keys `load_config` passes to
`_validate_sections`. -/
def section_requirements : List (String × List String) :=
  [("azure", ["tenant-id"]),
   ("authentication",
     ["app-id", "app-secret", "salt", "redirect-uri", "admin-group"]),
   ("teams",
     ["app-id", "app-secret", "salt", "user", "public-key", "private-key"]),
   ("sql", ["server", "port", "database", "username", "password", "salt"]),
   ("web", ["logging-level"])]

/-- `GlobalConfig._validate_sections`: a missing required *section*
raises `ValueError`; a missing required key inside a present section,
and an invalid `web.logging-level`, are only logged (no semantic
effect, so they are no-ops here). -/
def validate_sections (cfg : Dict)
    (reqs : List (String × List String)) : Except String Unit :=
  match reqs with
  | [] => Except.ok ()
  | (sec, _) :: rest =>
      match lookup cfg sec with
      | none => Except.error ("ValueError: Missing " ++ sec)
      | some _ => validate_sections cfg rest

end GlobalConfig

/-! ## Runtime connection negotiation (`docker_api.py`, class `DockerApi`)

Candidate construction is a pure function of the effective `force_tcp`
flag, the platform, the existence of the Unix socket path, and the
configured server/port. The connect-and-ping outcome of one candidate
is abstracted as an oracle `succ : Attempt → Bool`. -/

namespace DockerApi

/-- One connection candidate, as `_get_connection_attempts` builds it. -/
structure Attempt where
  url : String
  method : String
deriving DecidableEq, Repr

/-- The platform/socket branch of `_get_connection_attempts` when
`force_tcp` is false: the Unix socket when not on Windows and the
socket path exists, else the Windows named pipe on Windows, else
nothing. -/
def socketCandidates (isWindows sockExists : Bool) : List Attempt :=
  if !isWindows && sockExists then
    [⟨"unix:///var/run/docker.sock", "Unix socket"⟩]
  else if isWindows then
    [⟨"npipe://./pipe/docker_engine", "Windows named pipe"⟩]
  else []

/-- The TCP candidates `_get_connection_attempts` always appends:
configured server, then the two loopback fallbacks. -/
def tcpCandidates (server : String) (port : Nat) : List Attempt :=
  [⟨"tcp://" ++ server ++ ":" ++ toString port,
    "TCP (" ++ server ++ ":" ++ toString port ++ ")"⟩,
   ⟨"tcp://localhost:2375", "TCP (localhost:2375)"⟩,
   ⟨"tcp://127.0.0.1:2375", "TCP (127.0.0.1:2375)"⟩]

/-- `DockerApi._get_connection_attempts`. -/
def get_connection_attempts (force_tcp isWindows sockExists : Bool)
    (server : String) (port : Nat) : List Attempt :=
  (if !force_tcp then socketCandidates isWindows sockExists else []) ++
  tcpCandidates server port

/-- The `DOCKER_CONNECTION_METHOD` override in `__init__`: the
environment value (default `auto`), lowercased; `tcp` forces
`force_tcp := True`, `socket` forces `force_tcp := False`, anything
else leaves the constructor argument as passed. -/
def effForceTcp (env : Option String) (force_tcp : Bool) : Bool :=
  let m := lowerStr (env.getD "auto")
  if m = "tcp" then true
  else if m = "socket" then false
  else force_tcp

/-- The connection loop of `__init__`: try each candidate in order and
record the first whose connect-and-ping succeeds; `none` when all
candidates are exhausted (the `ConnectionError` path). -/
def tryConnections (attempts : List Attempt) (succ : Attempt → Bool) :
    Option Attempt :=
  match attempts with
  | [] => none
  | a :: rest => if succ a then some a else tryConnections rest succ

/-- The candidates the loop actually attempts: everything before the
first success, plus the success itself (all of them when none
succeeds). -/
def attemptsTried (attempts : List Attempt) (succ : Attempt → Bool) :
    List Attempt :=
  match attempts with
  | [] => []
  | a :: rest => if succ a then [a] else a :: attemptsTried rest succ

end DockerApi

/-! ## Service status resolution (`docker_api.py` `container_status`
and `api.py` `api_containers`) -/

namespace StatusResolver

/-- A running container as the resolver sees it: its name, its image's
label mapping, and its runtime-reported status and health strings. -/
structure Container where
  name : String
  labels : List (String × String)
  status : String
  health : String
deriving DecidableEq, Repr

/-- `labels.get(key, default)`. -/
def labelGet (ls : List (String × String)) (k d : String) : String :=
  match lookup ls k with
  | some v => v
  | none => d

/-- The service-name label, with the source's fallback. -/
def serviceLabel (c : Container) : String :=
  labelGet c.labels "net.networkdirection.service.name" "Unknown Service"

/-- The plugin-name label, with the source's fallback. -/
def pluginLabel (c : Container) : String :=
  labelGet c.labels "net.networkdirection.plugin.name" "Unknown Plugin"

/-- Whether a container matches the query, exactly as the loop tests
it. -/
def matchesQuery (q : String) (c : Container) : Bool :=
  serviceLabel c = q || pluginLabel c = q

/-- The record `container_status` builds for a matched container: the
three OCI labels with their fallback strings, the query echoed back as
`service_name`, and the container's live status and health. -/
def mkStatus (q : String) (c : Container) : Dict :=
  [("name", Val.leaf (Leaf.s c.name)),
   ("title", Val.leaf (Leaf.s
     (labelGet c.labels "org.opencontainers.image.title" "Unknown Title"))),
   ("description", Val.leaf (Leaf.s
     (labelGet c.labels "org.opencontainers.image.description"
       "No description available"))),
   ("service_name", Val.leaf (Leaf.s q)),
   ("version", Val.leaf (Leaf.s
     (labelGet c.labels "org.opencontainers.image.version"
       "Unknown Version"))),
   ("status", Val.leaf (Leaf.s c.status)),
   ("health", Val.leaf (Leaf.s c.health))]

/-- The scan loop of `container_status`: `status` starts as the empty
dict and is overwritten by every match, so the last match survives. -/
def csLoop (q : String) (cs : List Container) (acc : Dict) : Dict :=
  match cs with
  | [] => acc
  | c :: rest =>
      if matchesQuery q c then csLoop q rest (mkStatus q c)
      else csLoop q rest acc

/-- `DockerApi.container_status`: `None` when the runtime reports no
containers, otherwise the scan result (the empty dict when nothing
matched). -/
def container_status (cs : List Container) (q : String) : Option Dict :=
  match cs with
  | [] => none
  | _ => some (csLoop q cs [])

/-- The placeholder record `api_containers` substitutes when
`container_status` returns a falsy value. -/
def placeholder (service : String) : Dict :=
  [("name", Val.leaf (Leaf.s service)),
   ("title", Val.leaf (Leaf.s "missing")),
   ("description", Val.leaf (Leaf.s "unknown")),
   ("service_name", Val.leaf (Leaf.s service)),
   ("version", Val.leaf (Leaf.s "unknown")),
   ("status", Val.leaf (Leaf.s "container not found")),
   ("health", Val.leaf (Leaf.s "unknown"))]

/-- What `api_containers` appends for one service: the resolver's
record when truthy (`None` and the empty dict are both falsy in the
`if container_details:` test), else the placeholder. -/
def resolve_service (cs : List Container) (service : String) : Dict :=
  match container_status cs service with
  | none => placeholder service
  | some d => if d = [] then placeholder service else d

end StatusResolver

/-! ## Sample records used to instantiate theorems on concrete inputs -/

/-- A well-formed plugin record named `a`. -/
def sampleA : Dict :=
  [("name", Val.leaf (Leaf.s "a")), ("description", Val.leaf (Leaf.s "da")),
   ("webhook", Val.dict [("url", Leaf.s "ua"), ("secret", Leaf.s "sa"),
     ("allowed-ip", Leaf.strs ["1.2.3.4"])])]

/-- A well-formed plugin record named `b`. -/
def sampleB : Dict :=
  [("name", Val.leaf (Leaf.s "b")), ("description", Val.leaf (Leaf.s "db")),
   ("webhook", Val.dict [("url", Leaf.s "ub"), ("secret", Leaf.s "sb"),
     ("allowed-ip", Leaf.strs ["1.2.3.4"])])]

/-- An update patch that renames record `a` to `b`. -/
def sampleRenamePatch : Dict :=
  [("plugin_name", Val.leaf (Leaf.s "a")), ("name", Val.leaf (Leaf.s "b")),
   ("description", Val.leaf (Leaf.s "d2")),
   ("webhook", Val.dict [("url", Leaf.s "u2"), ("secret", Leaf.s "s2"),
     ("allowed-ip", Leaf.strs ["5.6.7.8"])])]

/-- The sample document after a `web` update that stores level
`debug`. -/
def sampleGlobalDebug : Dict :=
  [("azure", Val.dict [("tenant-id", Leaf.s "t")]),
   ("authentication", Val.dict [("app-id", Leaf.s "ai")]),
   ("teams", Val.dict [("app-id", Leaf.s "ti")]),
   ("sql", Val.dict [("server", Leaf.s "srv")]),
   ("web", Val.dict [("logging-level", Leaf.s "debug")])]

/-- A global-configuration document with every required section. -/
def sampleGlobal : Dict :=
  [("azure", Val.dict [("tenant-id", Leaf.s "t")]),
   ("authentication", Val.dict [("app-id", Leaf.s "ai")]),
   ("teams", Val.dict [("app-id", Leaf.s "ti")]),
   ("sql", Val.dict [("server", Leaf.s "srv")]),
   ("web", Val.dict [("logging-level", Leaf.s "info")])]

/-! ## Claim C1 — allow-list validation and CIDR networks -/

/-- C1, counterexample: the claim says a list whose every entry parses
as an IP address or an IP network (CIDR) passes validation. The list
`["10.0.0.0/24"]` consists of one valid CIDR network, yet
`validate_ip_addresses` rejects it (`ipaddress.ip_address` raises on a
`/`), so a register/update whose only candidate invalidity is a CIDR
entry does fail validation, and rejection is not equivalent to "some
entry is neither a valid address nor a valid network". -/
theorem C1_counterexample :
    ip_network_ok "10.0.0.0/24" = true ∧
    ip_address_ok "10.0.0.0/24" = false ∧
    validate_ip_addresses ["10.0.0.0/24"] = false := by
  refine ⟨by decide, by decide, by decide⟩

/-- C1, amended: the allow-list validation used by plugin register and
update accepts a list exactly when every entry parses as a bare IP
address; an entry in CIDR network notation is rejected even when it is
a valid network. -/
theorem C1_amended (l : List String) :
    validate_ip_addresses l = true ↔ ∀ s ∈ l, ip_address_ok s = true := by
  induction l with
  | nil => simp [validate_ip_addresses]
  | cons a rest ih =>
      by_cases h : ip_address_ok a = true
      · simp [validate_ip_addresses, h, ih]
      · simp [validate_ip_addresses, h]

/-- C1, witness: the amended equivalence evaluated on a concrete
all-address list. -/
theorem C1_witness :
    validate_ip_addresses ["192.168.1.1", "10.0.0.7"] = true :=
  (C1_amended ["192.168.1.1", "10.0.0.7"]).mpr (by decide)

/-! ## Claim C8 — connection negotiation order and overrides -/

/-- C8, counterexample: the claim says that with the override set to
`socket` only the socket-only branch is attempted, bypassing platform
detection. With the override set to `socket` on a non-Windows host
whose socket path does not exist, the candidate list is exactly the
three TCP candidates (platform detection ran and found no socket), and
with every candidate accepting, the first connection actually attempted
is a TCP one — not a socket. -/
theorem C8_counterexample :
    DockerApi.effForceTcp (some "socket") true = false ∧
    DockerApi.get_connection_attempts
        (DockerApi.effForceTcp (some "socket") false) false false
        "host.docker.internal" 2375 =
      DockerApi.tcpCandidates "host.docker.internal" 2375 ∧
    DockerApi.tryConnections
        (DockerApi.get_connection_attempts
          (DockerApi.effForceTcp (some "socket") false) false false
          "host.docker.internal" 2375) (fun _ => true) =
      some ⟨"tcp://host.docker.internal:2375",
        "TCP (host.docker.internal:2375)"⟩ := by
  refine ⟨by decide, by rfl, by rfl⟩

/-- C8, amended: the negotiator tries its candidate list in order and
stops at the first candidate whose connect-and-ping succeeds (the
candidates actually attempted are exactly the failing prefix plus the
first success); with the override `tcp` every candidate is a TCP
candidate, so the local socket/pipe candidate is never attempted even
when present; the override `socket` merely clears `force_tcp` — the
candidate list is still built by platform detection with the TCP
fallbacks always appended, not a socket-only list. -/
theorem C8_amended :
    (∀ atts (succ : DockerApi.Attempt → Bool),
      DockerApi.tryConnections atts succ = atts.find? succ) ∧
    (∀ atts (succ : DockerApi.Attempt → Bool),
      DockerApi.attemptsTried atts succ =
        atts.takeWhile (fun a => !succ a) ++ (atts.find? succ).toList) ∧
    (∀ ft isW sock server port a,
      a ∈ DockerApi.get_connection_attempts
        (DockerApi.effForceTcp (some "tcp") ft) isW sock server port →
      a ∈ DockerApi.tcpCandidates server port) ∧
    (∀ ft isW sock server port,
      DockerApi.get_connection_attempts
        (DockerApi.effForceTcp (some "socket") ft) isW sock server port =
      DockerApi.socketCandidates isW sock ++
        DockerApi.tcpCandidates server port) := by
  refine ⟨?_, ?_, ?_, ?_⟩
  · intro atts succ
    induction atts with
    | nil => simp [DockerApi.tryConnections]
    | cons a rest ih =>
        by_cases h : succ a = true
        · simp [DockerApi.tryConnections, List.find?_cons, h]
        · simp [DockerApi.tryConnections, List.find?_cons, h, ih]
  · intro atts succ
    induction atts with
    | nil => simp [DockerApi.attemptsTried]
    | cons a rest ih =>
        by_cases h : succ a = true
        · simp [DockerApi.attemptsTried, List.find?_cons, h,
            List.takeWhile_cons]
        · simp [DockerApi.attemptsTried, List.find?_cons, h, ih,
            List.takeWhile_cons]
  · intro ft isW sock server port a ha
    have he : DockerApi.effForceTcp (some "tcp") ft = true := rfl
    rw [he] at ha
    simpa [DockerApi.get_connection_attempts] using ha
  · intro ft isW sock server port
    have he : DockerApi.effForceTcp (some "socket") ft = false := rfl
    rw [he]
    simp [DockerApi.get_connection_attempts]

/-- C8, witness: the amended facts evaluated on a concrete candidate
list where only the second TCP fallback accepts. -/
theorem C8_witness :
    DockerApi.tryConnections
        (DockerApi.get_connection_attempts true false true "h" 2375)
        (fun a => a.url = "tcp://localhost:2375") =
      some ⟨"tcp://localhost:2375", "TCP (localhost:2375)"⟩ ∧
    (⟨"tcp://localhost:2375", "TCP (localhost:2375)"⟩ : DockerApi.Attempt) ∈
      DockerApi.tcpCandidates "h" 2375 := by
  constructor
  · rw [C8_amended.1
      (DockerApi.get_connection_attempts true false true "h" 2375)
      (fun a => a.url = "tcp://localhost:2375")]
    rfl
  · exact C8_amended.2.2.1 true false true "h" 2375
      ⟨"tcp://localhost:2375", "TCP (localhost:2375)"⟩ (by decide)

/-! ## Helper lemmas for `GlobalConfig.update_config` -/

/-- An unrecognized `category` takes the final `else` branch: explicit
failure, document untouched, nothing dumped. -/
theorem gc_update_unrecognized (cfg : Dict) (patch : LDict) (cat : Leaf)
    (h : lget patch "category" = Except.ok cat)
    (h5 : ∀ c ∈ GlobalConfig.categories, cat ≠ Leaf.s c) :
    GlobalConfig.update_config cfg patch =
      Except.ok { ok := false, cfg := cfg, written := none } := by
  have h1 : cat ≠ Leaf.s "azure" := h5 "azure" (by simp [GlobalConfig.categories])
  have h2 : cat ≠ Leaf.s "authentication" :=
    h5 "authentication" (by simp [GlobalConfig.categories])
  have h3 : cat ≠ Leaf.s "teams" := h5 "teams" (by simp [GlobalConfig.categories])
  have h4 : cat ≠ Leaf.s "sql" := h5 "sql" (by simp [GlobalConfig.categories])
  have hw : cat ≠ Leaf.s "web" := h5 "web" (by simp [GlobalConfig.categories])
  unfold GlobalConfig.update_config
  rw [h]
  simp [h1, h2, h3, h4, hw]

/-- One section assignment leaves every other top-level key unchanged. -/
theorem setSectionKey_frame (cfg : Dict) (sec key : String) (v : Leaf)
    (cfg2 : Dict)
    (h : GlobalConfig.setSectionKey cfg sec key v = Except.ok cfg2) :
    ∀ j, j ≠ sec → lookup cfg2 j = lookup cfg j := by
  intro j hj
  unfold GlobalConfig.setSectionKey at h
  cases hl : lookup cfg sec with
  | none => rw [hl] at h; cases h
  | some w =>
      rw [hl] at h
      cases w with
      | leaf _ => cases h
      | dict m =>
          cases h
          exact lookup_setKey_ne cfg sec j _ (fun he => hj he.symm)

/-- One section assignment targets exactly the named section: the
section existed as a mapping and is replaced by the mapping with the
one key set. -/
theorem setSectionKey_self_lookup (cfg : Dict) (sec key : String) (v : Leaf)
    (cfg2 : Dict)
    (h : GlobalConfig.setSectionKey cfg sec key v = Except.ok cfg2) :
    ∃ m, lookup cfg sec = some (Val.dict m) ∧
      lookup cfg2 sec = some (Val.dict (setKey m key v)) := by
  unfold GlobalConfig.setSectionKey at h
  cases hl : lookup cfg sec with
  | none => rw [hl] at h; cases h
  | some w =>
      rw [hl] at h
      cases w with
      | leaf _ => cases h
      | dict m =>
          cases h
          exact ⟨m, rfl, lookup_setKey_self cfg sec _⟩

/-- A chain of section assignments leaves every other top-level key
unchanged. -/
theorem setSectionKeys_frame (sec : String) (kvs : List (String × String))
    (patch : LDict) :
    ∀ cfg cfg2, GlobalConfig.setSectionKeys cfg sec kvs patch =
      Except.ok cfg2 →
    ∀ j, j ≠ sec → lookup cfg2 j = lookup cfg j := by
  induction kvs with
  | nil =>
      intro cfg cfg2 h j hj
      unfold GlobalConfig.setSectionKeys at h
      cases h
      rfl
  | cons kv rest ih =>
      intro cfg cfg2 h j hj
      obtain ⟨secKey, patchKey⟩ := kv
      unfold GlobalConfig.setSectionKeys at h
      cases hp : lget patch patchKey with
      | error er => exact absurd h (by simp [hp])
      | ok v =>
          simp only [hp] at h
          cases hs : GlobalConfig.setSectionKey cfg sec secKey v with
          | error er => exact absurd h (by simp [hs])
          | ok cfg1 =>
              simp only [hs] at h
              calc lookup cfg2 j = lookup cfg1 j := ih cfg1 cfg2 h j hj
                _ = lookup cfg j := setSectionKey_frame cfg sec secKey v cfg1 hs j hj

/-- A required section missing from the document makes
`_validate_sections` raise. -/
theorem validate_sections_missing (cfg : Dict) :
    ∀ reqs : List (String × List String),
      (∃ p ∈ reqs, lookup cfg p.1 = none) →
      ∃ msg, GlobalConfig.validate_sections cfg reqs =
        Except.error msg := by
  intro reqs
  induction reqs with
  | nil => rintro ⟨p, hp, _⟩; cases hp
  | cons hd rest ih =>
      rintro ⟨p, hp, hnone⟩
      obtain ⟨sec, ks⟩ := hd
      unfold GlobalConfig.validate_sections
      cases hl : lookup cfg sec with
      | none => exact ⟨_, rfl⟩
      | some w =>
          rcases List.mem_cons.mp hp with heq | hmem
          · subst heq
            simp only at hnone
            rw [hnone] at hl
            cases hl
          · exact ih ⟨p, hmem, hnone⟩

/-! ## Claim C3 — error propagation of the global-config component -/

/-- C3, counterexample: a patch with the recognized category `azure`
but without the expected `tenant_id` field makes `update_config` raise
`KeyError` (the `config['tenant_id']` subscript), not return an
explicit failure result. -/
theorem C3_counterexample :
    GlobalConfig.update_config sampleGlobal [("category", Leaf.s "azure")] =
      Except.error "KeyError: tenant_id" := rfl

/-- C3, amended: an unrecognized category is returned as an explicit
failure with no write; but a recognized category whose expected patch
field is absent raises `KeyError` instead of returning a failure
result (shown for `azure`/`tenant_id`); and a required section absent
from the document at load time raises, as the claim says. -/
theorem C3_amended :
    (∀ cfg patch cat, lget patch "category" = Except.ok cat →
      (∀ c ∈ GlobalConfig.categories, cat ≠ Leaf.s c) →
      GlobalConfig.update_config cfg patch =
        Except.ok { ok := false, cfg := cfg, written := none }) ∧
    (∀ cfg patch, lget patch "category" = Except.ok (Leaf.s "azure") →
      lookup patch "tenant_id" = none →
      GlobalConfig.update_config cfg patch =
        Except.error "KeyError: tenant_id") ∧
    (∀ cfg, (∃ p ∈ GlobalConfig.section_requirements, lookup cfg p.1 = none) →
      ∃ msg, GlobalConfig.validate_sections cfg
        GlobalConfig.section_requirements = Except.error msg) := by
  refine ⟨gc_update_unrecognized, ?_, fun cfg => validate_sections_missing cfg _⟩
  intro cfg patch hcat hmiss
  have hten : lget patch "tenant_id" = Except.error "KeyError: tenant_id" := by
    unfold lget
    rw [hmiss]
    rfl
  simp [GlobalConfig.update_config, hcat, GlobalConfig.sectionKeys,
    GlobalConfig.setSectionKeys, hten]

/-- C3, witness: the amended facts at concrete inputs — an unrecognized
category returns the explicit failure triple, and the empty document
(missing the `azure` section) makes section validation raise. -/
theorem C3_witness :
    GlobalConfig.update_config sampleGlobal [("category", Leaf.s "nope")] =
      Except.ok { ok := false, cfg := sampleGlobal, written := none } ∧
    ∃ msg, GlobalConfig.validate_sections []
      GlobalConfig.section_requirements = Except.error msg :=
  ⟨C3_amended.1 sampleGlobal _ (Leaf.s "nope") rfl (by decide),
   C3_amended.2.2 []
     ⟨("azure", ["tenant-id"]), by simp [GlobalConfig.section_requirements], rfl⟩⟩

/-! ## Claim C5 — frame property of global-config update -/

/-- C5: an unrecognized category fails with no write; a successful
update with category `cat` leaves every other top-level section
unchanged and dumps exactly the new document; and a successful `web`
update stores the lowercased logging level. -/
theorem C5_frame :
    (∀ cfg patch cat, lget patch "category" = Except.ok cat →
      (∀ c ∈ GlobalConfig.categories, cat ≠ Leaf.s c) →
      GlobalConfig.update_config cfg patch =
        Except.ok { ok := false, cfg := cfg, written := none }) ∧
    (∀ cfg patch r cat, GlobalConfig.update_config cfg patch = Except.ok r →
      r.ok = true → lget patch "category" = Except.ok (Leaf.s cat) →
      r.written = some r.cfg ∧
      ∀ k, k ≠ cat → lookup r.cfg k = lookup cfg k) ∧
    (∀ cfg patch r v, GlobalConfig.update_config cfg patch = Except.ok r →
      r.ok = true → lget patch "category" = Except.ok (Leaf.s "web") →
      lget patch "web_logging_level" = Except.ok (Leaf.s v) →
      ∃ m, lookup r.cfg "web" = some (Val.dict m) ∧
        lookup m "logging-level" = some (Leaf.s (lowerStr v))) := by
  refine ⟨gc_update_unrecognized, ?_, ?_⟩
  · intro cfg patch r cat h hok hcat
    simp only [GlobalConfig.update_config, hcat] at h
    by_cases h4 : Leaf.s cat = Leaf.s "azure" ∨
        Leaf.s cat = Leaf.s "authentication" ∨
        Leaf.s cat = Leaf.s "teams" ∨ Leaf.s cat = Leaf.s "sql"
    · rw [if_pos h4] at h
      cases hs : GlobalConfig.setSectionKeys cfg cat
          (GlobalConfig.sectionKeys cat) patch with
      | error er => exact absurd h (by simp [hs])
      | ok cfg2 =>
          simp only [hs, Except.ok.injEq] at h
          subst h
          exact ⟨rfl, fun k hk =>
            setSectionKeys_frame cat (GlobalConfig.sectionKeys cat) patch
              cfg cfg2 hs k hk⟩
    · rw [if_neg h4] at h
      by_cases hw : Leaf.s cat = Leaf.s "web"
      · rw [if_pos hw] at h
        have hcw : cat = "web" := Leaf.s.inj hw
        subst hcw
        cases hv : lget patch "web_logging_level" with
        | error er => exact absurd h (by simp [hv])
        | ok v =>
            simp only [hv] at h
            cases v with
            | strs _ => exact Except.noConfusion h
            | s vs =>
                cases hs : GlobalConfig.setSectionKey cfg "web"
                    "logging-level" (Leaf.s (lowerStr vs)) with
                | error er => exact absurd h (by simp [hs])
                | ok cfg2 =>
                    simp only [hs, Except.ok.injEq] at h
                    subst h
                    exact ⟨rfl, fun k hk =>
                      setSectionKey_frame cfg "web" "logging-level" _ cfg2
                        hs k hk⟩
      · rw [if_neg hw] at h
        have hr : r = { ok := false, cfg := cfg, written := none } :=
          (Except.ok.inj h).symm
        rw [hr] at hok
        exact Bool.noConfusion hok
  · intro cfg patch r v h hok hcat hlev
    have hred : GlobalConfig.update_config cfg patch =
        (match GlobalConfig.setSectionKey cfg "web" "logging-level"
            (Leaf.s (lowerStr v)) with
         | Except.error er => Except.error er
         | Except.ok cfg2 =>
             Except.ok { ok := true, cfg := cfg2, written := some cfg2 }) := by
      unfold GlobalConfig.update_config
      rw [hcat, hlev]
      exact rfl
    rw [hred] at h
    cases hs : GlobalConfig.setSectionKey cfg "web" "logging-level"
        (Leaf.s (lowerStr v)) with
    | error er => rw [hs] at h; exact Except.noConfusion h
    | ok cfg2 =>
        rw [hs] at h
        have hr : ({ ok := true, cfg := cfg2, written := some cfg2 } :
            GlobalConfig.GRes) = r := Except.ok.inj h
        subst hr
        obtain ⟨m, _, hm2⟩ :=
          setSectionKey_self_lookup cfg "web" "logging-level"
            (Leaf.s (lowerStr v)) cfg2 hs
        exact ⟨setKey m "logging-level" (Leaf.s (lowerStr v)), hm2,
          lookup_setKey_self m "logging-level" _⟩

/-- C5, witness: a concrete `web` patch with level `DEBUG` — the other
sections are unchanged and the stored level is `debug`. -/
theorem C5_witness :
    ∃ r, GlobalConfig.update_config sampleGlobal
        [("category", Leaf.s "web"), ("web_logging_level", Leaf.s "DEBUG")] =
      Except.ok r ∧ r.ok = true ∧
      lookup r.cfg "azure" = lookup sampleGlobal "azure" ∧
      ∃ m, lookup r.cfg "web" = some (Val.dict m) ∧
        lookup m "logging-level" = some (Leaf.s "debug") := by
  have h : GlobalConfig.update_config sampleGlobal
      [("category", Leaf.s "web"), ("web_logging_level", Leaf.s "DEBUG")] =
    Except.ok ⟨true, sampleGlobalDebug, some sampleGlobalDebug⟩ := rfl
  refine ⟨_, h, rfl, ?_, ?_⟩
  · exact (C5_frame.2.1 sampleGlobal _ _ "web" h rfl rfl).2 "azure" (by decide)
  · simpa using C5_frame.2.2 sampleGlobal _ _ "DEBUG" h rfl rfl rfl

/-! ## Helper lemmas for the status resolver -/

/-- The scan loop keeps the record of the last matching container: it
folds the matched containers over the accumulator. -/
theorem csLoop_eq_foldl (q : String) :
    ∀ (cs : List StatusResolver.Container) (acc : Dict),
      StatusResolver.csLoop q cs acc =
        (cs.filter (StatusResolver.matchesQuery q)).foldl
          (fun _ c => StatusResolver.mkStatus q c) acc := by
  intro cs
  induction cs with
  | nil => intro acc; simp [StatusResolver.csLoop]
  | cons c rest ih =>
      intro acc
      by_cases h : StatusResolver.matchesQuery q c = true
      · simp [StatusResolver.csLoop, h, List.filter_cons, ih]
      · simp [StatusResolver.csLoop, h, List.filter_cons, ih]

/-- Folding a constant-update function keeps the last element. -/
theorem foldl_keeps_last {α β : Type} (f : α → β) :
    ∀ (l : List α) (acc : β),
      l.foldl (fun _ c => f c) acc =
        match l.getLast? with
        | none => acc
        | some c => f c := by
  intro l
  induction l with
  | nil => intro acc; simp
  | cons a rest ih =>
      intro acc
      cases rest with
      | nil => simp [List.foldl]
      | cons b rest2 =>
          rw [List.foldl_cons, ih (f a), List.getLast?_cons_cons]
          cases hl : (b :: rest2).getLast? with
          | none =>
              exact absurd (List.getLast?_eq_none_iff.mp hl)
                (List.cons_ne_nil b rest2)
          | some c => rfl

/-! ## Claim C9 — service status resolution -/

/-- C9: a query matching no running container yields the placeholder
record, whose `status` is `container not found` and whose `health` is
`unknown`; a query with at least one match yields the record built from
the last matching container scanned (hence, with exactly one match,
that container's label-derived metadata and live status/health, whose
field values the last conjunct spells out). -/
theorem C9_status :
    (∀ cs q, (∀ c ∈ cs, StatusResolver.matchesQuery q c = false) →
      StatusResolver.resolve_service cs q = StatusResolver.placeholder q ∧
      lookup (StatusResolver.placeholder q) "status" =
        some (Val.leaf (Leaf.s "container not found")) ∧
      lookup (StatusResolver.placeholder q) "health" =
        some (Val.leaf (Leaf.s "unknown"))) ∧
    (∀ cs q, cs.filter (StatusResolver.matchesQuery q) ≠ [] →
      ∃ c, (cs.filter (StatusResolver.matchesQuery q)).getLast? = some c ∧
        StatusResolver.resolve_service cs q = StatusResolver.mkStatus q c) ∧
    (∀ q c,
      lookup (StatusResolver.mkStatus q c) "title" = some (Val.leaf (Leaf.s
        (StatusResolver.labelGet c.labels
          "org.opencontainers.image.title" "Unknown Title"))) ∧
      lookup (StatusResolver.mkStatus q c) "description" =
        some (Val.leaf (Leaf.s (StatusResolver.labelGet c.labels
          "org.opencontainers.image.description"
          "No description available"))) ∧
      lookup (StatusResolver.mkStatus q c) "version" =
        some (Val.leaf (Leaf.s (StatusResolver.labelGet c.labels
          "org.opencontainers.image.version" "Unknown Version"))) ∧
      lookup (StatusResolver.mkStatus q c) "status" =
        some (Val.leaf (Leaf.s c.status)) ∧
      lookup (StatusResolver.mkStatus q c) "health" =
        some (Val.leaf (Leaf.s c.health))) := by
  refine ⟨?_, ?_, ?_⟩
  · intro cs q hall
    refine ⟨?_, rfl, rfl⟩
    have hfil : cs.filter (StatusResolver.matchesQuery q) = [] := by
      rw [List.filter_eq_nil_iff]
      intro c hc
      simp [hall c hc]
    cases cs with
    | nil => rfl
    | cons c rest =>
        unfold StatusResolver.resolve_service
        unfold StatusResolver.container_status
        rw [csLoop_eq_foldl, hfil]
        rfl
  · intro cs q hfil
    cases hl : (cs.filter (StatusResolver.matchesQuery q)).getLast? with
    | none => exact absurd (List.getLast?_eq_none_iff.mp hl) hfil
    | some c =>
        refine ⟨c, rfl, ?_⟩
        cases cs with
        | nil => simp at hfil
        | cons c0 rest =>
            unfold StatusResolver.resolve_service
            unfold StatusResolver.container_status
            rw [csLoop_eq_foldl, foldl_keeps_last, hl]
            simp [StatusResolver.mkStatus]
  · intro q c
    exact ⟨rfl, rfl, rfl, rfl, rfl⟩

/-- A running container labelled as the `core` service. -/
def sampleContainer : StatusResolver.Container :=
  { name := "core1",
    labels := [("net.networkdirection.service.name", "core"),
      ("org.opencontainers.image.title", "Core Service")],
    status := "running", health := "healthy" }

/-- C9, witness: on one concrete container, a non-matching query gets
the placeholder and a matching query gets that container's record. -/
theorem C9_witness :
    StatusResolver.resolve_service [sampleContainer] "nope" =
      StatusResolver.placeholder "nope" ∧
    ∃ c, ([sampleContainer].filter
        (StatusResolver.matchesQuery "core")).getLast? = some c ∧
      StatusResolver.resolve_service [sampleContainer] "core" =
        StatusResolver.mkStatus "core" c :=
  ⟨(C9_status.1 [sampleContainer] "nope" (by decide)).1,
   C9_status.2.1 [sampleContainer] "core" (by decide)⟩

/-! ## Helper lemmas for `PluginConfig.register` -/

namespace PluginConfig

/-- The record `register` appends on success (exactly the three fields,
copied from the input). -/
def mkEntry (n d : Val) (u sec : Leaf) (ips : List String) : Dict :=
  [("name", n), ("description", d),
   ("webhook", Val.dict [("url", u), ("secret", sec),
     ("allowed-ip", Leaf.strs ips)])]

/-- The duplicate scan answers `true` whenever some record already has
the candidate's name. -/
theorem findDup_true_of_mem (config : Dict) (cn : Val) :
    ∀ (st : List Dict) (b : Bool),
      findDup st config = Except.ok b →
      dget config "name" = Except.ok cn →
      (∃ e ∈ st, dget e "name" = Except.ok cn) → b = true := by
  intro st
  induction st with
  | nil =>
      rintro b h hcn ⟨e, he, _⟩
      exact absurd he (List.not_mem_nil e)
  | cons e0 rest ih =>
      rintro b h hcn ⟨e, he, hen⟩
      unfold findDup at h
      cases hd : dget e0 "name" with
      | error er => rw [hd] at h; exact Except.noConfusion h
      | ok en =>
          rw [hd, hcn] at h
          have h' : (if en = cn then Except.ok true
              else findDup rest config) = Except.ok b := h
          by_cases heq : en = cn
          · rw [if_pos heq] at h'
            exact (Except.ok.inj h').symm
          · rw [if_neg heq] at h'
            rcases List.mem_cons.mp he with rfl | hmem
            · rw [hd] at hen
              exact absurd (Except.ok.inj hen) heq
            · exact ih b h' hcn ⟨e, hmem, hen⟩

/-- When the duplicate scan answers `false`, every existing record's
name differs from the candidate's. -/
theorem findDup_false_names (config : Dict) (cn : Val) :
    ∀ st : List Dict,
      findDup st config = Except.ok false →
      dget config "name" = Except.ok cn →
      ∀ e ∈ st, ∃ en, dget e "name" = Except.ok en ∧ en ≠ cn := by
  intro st
  induction st with
  | nil => intro _ _ e he; exact absurd he (List.not_mem_nil e)
  | cons e0 rest ih =>
      intro h hcn e he
      unfold findDup at h
      cases hd : dget e0 "name" with
      | error er => rw [hd] at h; exact Except.noConfusion h
      | ok en =>
          rw [hd, hcn] at h
          have h' : (if en = cn then Except.ok true
              else findDup rest config) = Except.ok false := h
          by_cases heq : en = cn
          · rw [if_pos heq] at h'
            exact Bool.noConfusion (Except.ok.inj h')
          · rw [if_neg heq] at h'
            rcases List.mem_cons.mp he with rfl | hmem
            · exact ⟨en, hd, heq⟩
            · exact ih h' hcn e hmem

/-- Characterization of a successful `register`: no duplicate, the
allow-list validated, and the result appends exactly the three-field
record copied from the input and dumps the whole new collection. -/
theorem register_ok_true (st : List Dict) (config : Dict) (r : OpResult)
    (h : register st config = Except.ok r) (hok : r.ok = true) :
    ∃ n d wh u sec ips,
      findDup st config = Except.ok false ∧
      dget config "webhook" = Except.ok (Val.dict wh) ∧
      lget wh "allowed-ip" = Except.ok (Leaf.strs ips) ∧
      validate_ip_addresses ips = true ∧
      dget config "name" = Except.ok n ∧
      dget config "description" = Except.ok d ∧
      lget wh "url" = Except.ok u ∧ lget wh "secret" = Except.ok sec ∧
      r = ⟨true, st ++ [mkEntry n d u sec ips],
        some (st ++ [mkEntry n d u sec ips])⟩ := by
  unfold register at h
  split at h
  · exact Except.noConfusion h
  · rw [← Except.ok.inj h] at hok
    exact Bool.noConfusion hok
  · rename_i hf
    split at h
    · exact Except.noConfusion h
    · rename_i whv hw
      split at h
      · exact Except.noConfusion h
      · rename_i wh ha
        cases whv with
        | leaf l => exact Except.noConfusion ha
        | dict m =>
            have hm : m = wh := Except.ok.inj ha
            subst hm
            split at h
            · exact Except.noConfusion h
            · rename_i ipsLeaf hip
              split at h
              · exact Except.noConfusion h
              · rename_i ips hsl
                cases ipsLeaf with
                | s l => exact Except.noConfusion hsl
                | strs l =>
                    have hl : l = ips := Except.ok.inj hsl
                    subst hl
                    split at h
                    · rw [← Except.ok.inj h] at hok
                      exact Bool.noConfusion hok
                    · rename_i hvneg
                      have hv : validate_ip_addresses l = true := by
                        rcases Bool.eq_false_or_eq_true
                            (validate_ip_addresses l) with htrue | hfalse
                        · exact htrue
                        · exact absurd
                            (show (!validate_ip_addresses l) = true by
                              rw [hfalse]; rfl)
                            hvneg
                      split at h
                      · exact Except.noConfusion h
                      · exact Except.noConfusion h
                      · rename_i n d hn hd
                        split at h
                        · exact Except.noConfusion h
                        · exact Except.noConfusion h
                        · rename_i u sec hu hsec
                          exact ⟨n, d, m, u, sec, l, hf, hw, hip, hv,
                            hn, hd, hu, hsec, (Except.ok.inj h).symm⟩

/-- The two failure paths of `register` return `False` and reach
neither the append nor the dump. -/
theorem register_failure_paths (st : List Dict) (config : Dict)
    (r : OpResult) (h : register st config = Except.ok r) :
    (findDup st config = Except.ok true →
      r = ⟨false, st, none⟩) ∧
    (∀ wh ips, dget config "webhook" = Except.ok (Val.dict wh) →
      lget wh "allowed-ip" = Except.ok (Leaf.strs ips) →
      validate_ip_addresses ips = false →
      r = ⟨false, st, none⟩) := by
  constructor
  · intro hf
    unfold register at h
    rw [hf] at h
    exact (Except.ok.inj h).symm
  · intro wh ips hw hip hv
    cases hr : r.ok with
    | false =>
        have hrr : r = ⟨false, st, none⟩ ∨ r.ok = true := by
          unfold register at h
          split at h
          · exact Except.noConfusion h
          · exact Or.inl (Except.ok.inj h).symm
          · split at h
            · exact Except.noConfusion h
            · rename_i whv hw2
              split at h
              · exact Except.noConfusion h
              · rename_i wh2 ha
                split at h
                · exact Except.noConfusion h
                · rename_i ipsLeaf hip2
                  split at h
                  · exact Except.noConfusion h
                  · rename_i ips2 hsl
                    split at h
                    · exact Or.inl (Except.ok.inj h).symm
                    · split at h
                      · exact Except.noConfusion h
                      · exact Except.noConfusion h
                      · split at h
                        · exact Except.noConfusion h
                        · exact Except.noConfusion h
                        · exact Or.inr (by rw [← Except.ok.inj h])
        rcases hrr with hrr | hrr
        · exact hrr
        · rw [hr] at hrr
          exact Bool.noConfusion hrr
    | true =>
        obtain ⟨n, d, wh2, u, sec, ips2, hf, hw2, hip2, hv2, _⟩ :=
          register_ok_true st config r h hr
        rw [hw] at hw2
        have hwh : wh = wh2 := Val.dict.inj (Except.ok.inj hw2)
        subst hwh
        rw [hip] at hip2
        have hips : ips = ips2 := Leaf.strs.inj (Except.ok.inj hip2)
        subst hips
        rw [hv] at hv2
        exact Bool.noConfusion hv2

/-- `d[k]` succeeds with `v` exactly when the key is bound to `v`. -/
theorem dget_ok_iff (m : Dict) (k : String) (v : Val) :
    dget m k = Except.ok v ↔ lookup m k = some v := by
  unfold dget
  cases h : lookup m k <;> simp

/-- Subscript access is unchanged by setting a different key. -/
theorem dget_setKey_ne (m : Dict) (k j : String) (v : Val) (h : k ≠ j) :
    dget (setKey m k v) j = dget m j := by
  unfold dget
  rw [lookup_setKey_ne m k j v h]

/-- A record's `name` binding (`None` when the key is absent). -/
def entryName (e : Dict) : Option Val := lookup e "name"

/-- All record names in the collection are pairwise distinct. -/
def NamesDistinct (st : List Dict) : Prop := (st.map entryName).Nodup

instance (st : List Dict) : Decidable (NamesDistinct st) :=
  List.nodupDecidable _

/-- Every `Except.ok` result of `register` is either the unchanged
failure triple or a success. -/
theorem register_result_cases (st : List Dict) (config : Dict)
    (r : OpResult) (h : register st config = Except.ok r) :
    r = ⟨false, st, none⟩ ∨ r.ok = true := by
  unfold register at h
  split at h
  · exact Except.noConfusion h
  · exact Or.inl (Except.ok.inj h).symm
  · split at h
    · exact Except.noConfusion h
    · split at h
      · exact Except.noConfusion h
      · split at h
        · exact Except.noConfusion h
        · split at h
          · exact Except.noConfusion h
          · split at h
            · exact Or.inl (Except.ok.inj h).symm
            · split at h
              · exact Except.noConfusion h
              · exact Except.noConfusion h
              · split at h
                · exact Except.noConfusion h
                · exact Except.noConfusion h
                · exact Or.inr (by rw [← Except.ok.inj h])

/-- Characterization of a successful in-place mutation: every field is
read from the patch and written over the record, and nothing else
changes. -/
theorem update_entry_fields (e nc e2 : Dict) (ips : List String)
    (h : update_entry e nc = Except.ok (e2, ips)) :
    ∃ n d whOld ncwh u sec,
      dget nc "name" = Except.ok n ∧
      dget nc "description" = Except.ok d ∧
      dget e "webhook" = Except.ok (Val.dict whOld) ∧
      dget nc "webhook" = Except.ok (Val.dict ncwh) ∧
      lget ncwh "url" = Except.ok u ∧
      lget ncwh "secret" = Except.ok sec ∧
      lget ncwh "allowed-ip" = Except.ok (Leaf.strs ips) ∧
      e2 = setKey (setKey (setKey e "name" n) "description" d) "webhook"
        (Val.dict (setKey (setKey (setKey whOld "url" u) "secret" sec)
          "allowed-ip" (Leaf.strs ips))) := by
  unfold update_entry at h
  split at h
  · exact Except.noConfusion h
  · rename_i n hn
    split at h
    · exact Except.noConfusion h
    · rename_i d hd
      split at h
      · exact Except.noConfusion h
      · rename_i whv hwh
        split at h
        · exact Except.noConfusion h
        · rename_i wh ha
          cases whv with
          | leaf l => exact Except.noConfusion ha
          | dict m =>
              have hm : m = wh := Except.ok.inj ha
              subst hm
              split at h
              · exact Except.noConfusion h
              · rename_i ncwhv hncwh
                split at h
                · exact Except.noConfusion h
                · rename_i ncwh hb
                  cases ncwhv with
                  | leaf l => exact Except.noConfusion hb
                  | dict m2 =>
                      have hm2 : m2 = ncwh := Except.ok.inj hb
                      subst hm2
                      split at h
                      · exact Except.noConfusion h
                      · exact Except.noConfusion h
                      · exact Except.noConfusion h
                      · rename_i u sec ipsLeaf hu hsec hipl
                        split at h
                        · exact Except.noConfusion h
                        · rename_i ips2 hsl
                          cases ipsLeaf with
                          | s l => exact Except.noConfusion hsl
                          | strs l =>
                              have hl : l = ips2 := Except.ok.inj hsl
                              subst hl
                              obtain ⟨he2, hips⟩ :=
                                Prod.mk.inj (Except.ok.inj h)
                              subst hips
                              refine ⟨n, d, m, m2, u, sec, hn, hd, ?_,
                                hncwh, hu, hsec, hipl, he2.symm⟩
                              rw [← hwh, dget_setKey_ne _ _ _ _ (by decide),
                                dget_setKey_ne _ _ _ _ (by decide)]

/-- Where the update search loop succeeds, the collection splits at the
first record whose name matches the patch's `plugin_name`, and exactly
that record is replaced by its mutation. -/
theorem updLoop_split (nc : Dict) :
    ∀ (st st2 : List Dict) (ips : List String),
      updLoop nc st = Except.ok (some (st2, ips)) →
      ∃ pre e post e2 pn,
        st = pre ++ e :: post ∧ st2 = pre ++ e2 :: post ∧
        dget nc "plugin_name" = Except.ok pn ∧
        dget e "name" = Except.ok pn ∧
        update_entry e nc = Except.ok (e2, ips) := by
  intro st
  induction st with
  | nil =>
      intro st2 ips h
      unfold updLoop at h
      exact Option.noConfusion (Except.ok.inj h)
  | cons e0 rest ih =>
      intro st2 ips h
      unfold updLoop at h
      split at h
      · exact Except.noConfusion h
      · exact Except.noConfusion h
      · rename_i en pn hen hpn
        by_cases heq : en = pn
        · rw [if_pos heq] at h
          split at h
          · exact Except.noConfusion h
          · rename_i e2 ips2 hup
            obtain ⟨h1, h2⟩ := Prod.mk.inj (Option.some.inj (Except.ok.inj h))
            subst h2
            exact ⟨[], e0, rest, e2, pn, rfl, h1.symm, hpn,
              by rw [hen, heq], hup⟩
        · rw [if_neg heq] at h
          split at h
          · exact Except.noConfusion h
          · exact Option.noConfusion (Except.ok.inj h)
          · rename_i rest2 ips2 hrec
            obtain ⟨h1, h2⟩ := Prod.mk.inj (Option.some.inj (Except.ok.inj h))
            subst h2
            obtain ⟨pre, e, post, e2, pn', hst, hst2, hpn', hename, hup⟩ :=
              ih rest2 ips2 hrec
            exact ⟨e0 :: pre, e, post, e2, pn', by simp [hst],
              by simp [← h1, hst2], hpn', hename, hup⟩

/-- The two `Except.ok` shapes of `update_config`: not-found (failure,
unchanged, no dump) or found-and-mutated, in which case the dump
happens exactly when the new allow-list validates. -/
theorem update_config_cases (st : List Dict) (nc : Dict) (r : OpResult)
    (h : update_config st nc = Except.ok r) :
    (updLoop nc st = Except.ok none ∧ r = ⟨false, st, none⟩) ∨
    (∃ st2 ips, updLoop nc st = Except.ok (some (st2, ips)) ∧
      ((validate_ip_addresses ips = false ∧ r = ⟨false, st2, none⟩) ∨
       (validate_ip_addresses ips = true ∧ r = ⟨true, st2, some st2⟩))) := by
  unfold update_config at h
  split at h
  · exact Except.noConfusion h
  · rename_i hl
    exact Or.inl ⟨hl, (Except.ok.inj h).symm⟩
  · rename_i st2 ips hl
    refine Or.inr ⟨st2, ips, hl, ?_⟩
    split at h
    · rename_i hv
      have hv' : validate_ip_addresses ips = false := by
        rcases Bool.eq_false_or_eq_true (validate_ip_addresses ips) with
          htrue | hfalse
        · rw [htrue] at hv
          exact Bool.noConfusion hv
        · exact hfalse
      exact Or.inl ⟨hv', (Except.ok.inj h).symm⟩
    · rename_i hv
      have hv' : validate_ip_addresses ips = true := by
        rcases Bool.eq_false_or_eq_true (validate_ip_addresses ips) with
          htrue | hfalse
        · exact htrue
        · exact absurd (by rw [hfalse]; rfl) hv
      exact Or.inr ⟨hv', (Except.ok.inj h).symm⟩

/-- Where the delete search loop succeeds, the collection splits at the
first record whose name matches, and exactly that record is removed. -/
theorem delLoop_split (name : String) :
    ∀ (st st2 : List Dict),
      delLoop name st = Except.ok (some st2) →
      ∃ pre e post, st = pre ++ e :: post ∧ st2 = pre ++ post ∧
        dget e "name" = Except.ok (Val.leaf (Leaf.s name)) := by
  intro st
  induction st with
  | nil =>
      intro st2 h
      unfold delLoop at h
      exact Option.noConfusion (Except.ok.inj h)
  | cons e0 rest ih =>
      intro st2 h
      unfold delLoop at h
      split at h
      · exact Except.noConfusion h
      · rename_i en hen
        by_cases heq : en = Val.leaf (Leaf.s name)
        · rw [if_pos heq] at h
          have h1 : rest = st2 := Option.some.inj (Except.ok.inj h)
          exact ⟨[], e0, rest, rfl, by simp [← h1], by rw [hen, heq]⟩
        · rw [if_neg heq] at h
          split at h
          · exact Except.noConfusion h
          · exact Option.noConfusion (Except.ok.inj h)
          · rename_i rest2 hrec
            have h1 : e0 :: rest2 = st2 := Option.some.inj (Except.ok.inj h)
            obtain ⟨pre, e, post, hst, hst2, hename⟩ := ih rest2 hrec
            exact ⟨e0 :: pre, e, post, by simp [hst], by simp [← h1, hst2],
              hename⟩

/-- The two `Except.ok` shapes of `delete`. -/
theorem delete_cases (st : List Dict) (name : String) (r : OpResult)
    (h : delete st name = Except.ok r) :
    (delLoop name st = Except.ok none ∧ r = ⟨false, st, none⟩) ∨
    (∃ st2, delLoop name st = Except.ok (some st2) ∧
      r = ⟨true, st2, some st2⟩) := by
  unfold delete at h
  split at h
  · exact Except.noConfusion h
  · rename_i hl
    exact Or.inl ⟨hl, (Except.ok.inj h).symm⟩
  · rename_i st2 hl
    exact Or.inr ⟨st2, hl, (Except.ok.inj h).symm⟩

end PluginConfig

/-- A registration input whose allow-list entry is not a valid address
(nor a valid network). -/
def sampleBadIp : Dict :=
  [("name", Val.leaf (Leaf.s "c")), ("description", Val.leaf (Leaf.s "dc")),
   ("webhook", Val.dict [("url", Leaf.s "uc"), ("secret", Leaf.s "sc"),
     ("allowed-ip", Leaf.strs ["999.9.9.9"])])]

/-! ## Claim C4 — failure paths of register and update -/

/-- C4: `register` with a name already present returns `False` and
leaves the collection unchanged with no dump; `register` with an
allow-list that fails validation returns `False`, unchanged, no dump;
`update` whose mutated allow-list fails validation returns `False` and
performs no dump. -/
theorem C4_error_paths :
    (∀ st config r cn, PluginConfig.register st config = Except.ok r →
      dget config "name" = Except.ok cn →
      (∃ e ∈ st, dget e "name" = Except.ok cn) →
      r = ⟨false, st, none⟩) ∧
    (∀ st config r wh ips, PluginConfig.register st config = Except.ok r →
      dget config "webhook" = Except.ok (Val.dict wh) →
      lget wh "allowed-ip" = Except.ok (Leaf.strs ips) →
      validate_ip_addresses ips = false →
      r = ⟨false, st, none⟩) ∧
    (∀ st nc r st2 ips, PluginConfig.update_config st nc = Except.ok r →
      PluginConfig.updLoop nc st = Except.ok (some (st2, ips)) →
      validate_ip_addresses ips = false →
      r.ok = false ∧ r.written = none) := by
  refine ⟨?_, ?_, ?_⟩
  · intro st config r cn h hcn hex
    cases hf : PluginConfig.findDup st config with
    | error er =>
        unfold PluginConfig.register at h
        rw [hf] at h
        exact Except.noConfusion h
    | ok b =>
        have hb : b = true :=
          PluginConfig.findDup_true_of_mem config cn st b hf hcn hex
        subst hb
        exact (PluginConfig.register_failure_paths st config r h).1 hf
  · intro st config r wh ips h hw hip hv
    exact (PluginConfig.register_failure_paths st config r h).2 wh ips
      hw hip hv
  · intro st nc r st2 ips h hl hv
    rcases PluginConfig.update_config_cases st nc r h with
      ⟨hn, _⟩ | ⟨st2', ips', hl', hc⟩
    · rw [hl] at hn
      exact Option.noConfusion (Except.ok.inj hn)
    · rw [hl] at hl'
      obtain ⟨h1, h2⟩ := Prod.mk.inj (Option.some.inj (Except.ok.inj hl'))
      rw [← h2] at hc
      rcases hc with ⟨_, hr⟩ | ⟨hvt, _⟩
      · rw [hr]
        exact ⟨rfl, rfl⟩
      · rw [hv] at hvt
        exact Bool.noConfusion hvt

/-- C4, witness: a duplicate-name registration and an invalid
allow-list registration, both on concrete inputs, both returning the
unchanged failure triple. -/
theorem C4_witness :
    (∃ r, PluginConfig.register [sampleA] sampleA = Except.ok r ∧
      r = ⟨false, [sampleA], none⟩) ∧
    (∃ r, PluginConfig.register [] sampleBadIp = Except.ok r ∧
      r = ⟨false, [], none⟩) := by
  constructor
  · refine ⟨⟨false, [sampleA], none⟩, rfl, ?_⟩
    exact C4_error_paths.1 [sampleA] sampleA _ (Val.leaf (Leaf.s "a"))
      rfl rfl ⟨sampleA, List.mem_singleton.mpr rfl, rfl⟩
  · refine ⟨⟨false, [], none⟩, rfl, ?_⟩
    exact C4_error_paths.2.1 [] sampleBadIp _
      [("url", Leaf.s "uc"), ("secret", Leaf.s "sc"),
        ("allowed-ip", Leaf.strs ["999.9.9.9"])] ["999.9.9.9"]
      rfl rfl rfl (by decide)

/-! ## Claim C10 — the shape of a stored registration record -/

/-- C10: a successful `register` stores a record containing exactly
`name`, `description` and `webhook` with exactly `url`, `secret` and
`allowed-ip`, each copied from the input; any other caller-supplied
field (top-level or inside `webhook`, such as `auth-type`) does not
appear in the stored record, whose key lists are spelled out. -/
theorem C10_register_shape (st : List Dict) (config : Dict)
    (r : PluginConfig.OpResult)
    (h : PluginConfig.register st config = Except.ok r)
    (hok : r.ok = true) :
    ∃ n d wh u sec ips,
      dget config "name" = Except.ok n ∧
      dget config "description" = Except.ok d ∧
      dget config "webhook" = Except.ok (Val.dict wh) ∧
      lget wh "url" = Except.ok u ∧ lget wh "secret" = Except.ok sec ∧
      lget wh "allowed-ip" = Except.ok (Leaf.strs ips) ∧
      r.st = st ++ [PluginConfig.mkEntry n d u sec ips] ∧
      r.written = some (st ++ [PluginConfig.mkEntry n d u sec ips]) ∧
      (PluginConfig.mkEntry n d u sec ips).map Prod.fst =
        ["name", "description", "webhook"] ∧
      (∃ whNew, lookup (PluginConfig.mkEntry n d u sec ips) "webhook" =
        some (Val.dict whNew) ∧
        whNew.map Prod.fst = ["url", "secret", "allowed-ip"]) := by
  obtain ⟨n, d, wh, u, sec, ips, _, hw, hip, _, hn, hd, hu, hsec, hr⟩ :=
    PluginConfig.register_ok_true st config r h hok
  subst hr
  exact ⟨n, d, wh, u, sec, ips, hn, hd, hw, hu, hsec, hip, rfl, rfl, rfl,
    ⟨_, rfl, rfl⟩⟩

/-- A registration input carrying extra fields (`webhook.auth-type`
and a rogue top-level field) that the stored record must not contain. -/
def sampleExtra : Dict :=
  [("name", Val.leaf (Leaf.s "x")), ("description", Val.leaf (Leaf.s "dx")),
   ("webhook", Val.dict [("url", Leaf.s "ux"), ("secret", Leaf.s "sx"),
     ("allowed-ip", Leaf.strs ["1.2.3.4"]), ("auth-type", Leaf.s "basic")]),
   ("rogue", Val.leaf (Leaf.s "z"))]

/-- C10, witness: registering the record with extra fields stores
exactly the three-field record. -/
theorem C10_witness :
    ∃ r, PluginConfig.register [] sampleExtra = Except.ok r ∧
      r.ok = true ∧
      ∃ n d wh u sec ips,
        dget sampleExtra "name" = Except.ok n ∧
        dget sampleExtra "description" = Except.ok d ∧
        dget sampleExtra "webhook" = Except.ok (Val.dict wh) ∧
        lget wh "url" = Except.ok u ∧ lget wh "secret" = Except.ok sec ∧
        lget wh "allowed-ip" = Except.ok (Leaf.strs ips) ∧
        r.st = [] ++ [PluginConfig.mkEntry n d u sec ips] ∧
        r.written = some ([] ++ [PluginConfig.mkEntry n d u sec ips]) ∧
        (PluginConfig.mkEntry n d u sec ips).map Prod.fst =
          ["name", "description", "webhook"] ∧
        (∃ whNew, lookup (PluginConfig.mkEntry n d u sec ips) "webhook" =
          some (Val.dict whNew) ∧
          whNew.map Prod.fst = ["url", "secret", "allowed-ip"]) := by
  refine ⟨⟨true, [PluginConfig.mkEntry (Val.leaf (Leaf.s "x"))
    (Val.leaf (Leaf.s "dx")) (Leaf.s "ux") (Leaf.s "sx") ["1.2.3.4"]],
    some [PluginConfig.mkEntry (Val.leaf (Leaf.s "x"))
      (Val.leaf (Leaf.s "dx")) (Leaf.s "ux") (Leaf.s "sx") ["1.2.3.4"]]⟩,
    rfl, rfl, ?_⟩
  exact C10_register_shape [] sampleExtra _ rfl rfl

/-- The first record of the collection after the rename patch: name
`b`, like the untouched second record. -/
def sampleRenamedA : Dict :=
  [("name", Val.leaf (Leaf.s "b")), ("description", Val.leaf (Leaf.s "d2")),
   ("webhook", Val.dict [("url", Leaf.s "u2"), ("secret", Leaf.s "s2"),
     ("allowed-ip", Leaf.strs ["5.6.7.8"])])]

/-! ## Claim C2 — uniqueness of names across the collection -/

/-- C2, counterexample: the claim says update preserves pairwise
distinct names even when it changes the record's name. Starting from
the distinct collection `[a, b]`, the update that renames `a` to `b`
succeeds (no collision check exists in `update_config`) and leaves two
records both named `b`. -/
theorem C2_counterexample :
    PluginConfig.NamesDistinct [sampleA, sampleB] ∧
    PluginConfig.update_config [sampleA, sampleB] sampleRenamePatch =
      Except.ok ⟨true, [sampleRenamedA, sampleB],
        some [sampleRenamedA, sampleB]⟩ ∧
    ¬ PluginConfig.NamesDistinct [sampleRenamedA, sampleB] := by
  refine ⟨by decide, rfl, by decide⟩

/-- C2, amended: `register` and `delete` preserve pairwise-distinct
names; `update` preserves them only under the additional hypothesis
that the patch's new name equals the old one or occurs in no record of
the collection — without it the renaming update can create a
duplicate. -/
theorem C2_amended :
    (∀ st config r, PluginConfig.register st config = Except.ok r →
      PluginConfig.NamesDistinct st → PluginConfig.NamesDistinct r.st) ∧
    (∀ st name r, PluginConfig.delete st name = Except.ok r →
      PluginConfig.NamesDistinct st → PluginConfig.NamesDistinct r.st) ∧
    (∀ st nc r vNew vOld, PluginConfig.update_config st nc = Except.ok r →
      PluginConfig.NamesDistinct st →
      dget nc "name" = Except.ok vNew →
      dget nc "plugin_name" = Except.ok vOld →
      (vNew = vOld ∨ ∀ e ∈ st, PluginConfig.entryName e ≠ some vNew) →
      PluginConfig.NamesDistinct r.st) := by
  refine ⟨?_, ?_, ?_⟩
  · intro st config r h hd
    rcases PluginConfig.register_result_cases st config r h with hr | hok
    · rw [hr]
      exact hd
    · obtain ⟨n, d, wh, u, sec, ips, hf, _, _, _, hn, _, _, _, hr⟩ :=
        PluginConfig.register_ok_true st config r h hok
      subst hr
      show PluginConfig.NamesDistinct
        (st ++ [PluginConfig.mkEntry n d u sec ips])
      have hnames := PluginConfig.findDup_false_names config n st hf hn
      unfold PluginConfig.NamesDistinct at hd ⊢
      rw [List.map_append]
      rw [List.nodup_append]
      refine ⟨hd, List.nodup_singleton _, ?_⟩
      intro a ha hb
      rw [List.map_singleton, List.mem_singleton] at hb
      obtain ⟨e, he, hea⟩ := List.mem_map.mp ha
      obtain ⟨en, hen, hne⟩ := hnames e he
      apply hne
      have h1 : PluginConfig.entryName e = some en :=
        (PluginConfig.dget_ok_iff e "name" en).mp hen
      have h2 : PluginConfig.entryName (PluginConfig.mkEntry n d u sec ips) =
          some n := rfl
      rw [hea] at h1
      rw [hb, h2] at h1
      exact (Option.some.inj h1).symm
  · intro st name r h hd
    rcases PluginConfig.delete_cases st name r h with ⟨_, hr⟩ | ⟨st2, hl, hr⟩
    · rw [hr]
      exact hd
    · rw [hr]
      obtain ⟨pre, e, post, hst, hst2, _⟩ :=
        PluginConfig.delLoop_split name st st2 hl
      show PluginConfig.NamesDistinct st2
      have hsub : List.Sublist st2 st := by
        rw [hst, hst2]
        exact (List.sublist_cons_self e post).append_left pre
      exact (hsub.map PluginConfig.entryName).nodup hd
  · intro st nc r vNew vOld h hd hnew hold hside
    rcases PluginConfig.update_config_cases st nc r h with
      ⟨_, hr⟩ | ⟨st2, ips, hl, hc⟩
    · rw [hr]
      exact hd
    · have hrst : r.st = st2 := by
        rcases hc with ⟨_, hr⟩ | ⟨_, hr⟩ <;> rw [hr]
      rw [hrst]
      obtain ⟨pre, e, post, e2, pn, hst, hst2, hpn, hename, hup⟩ :=
        PluginConfig.updLoop_split nc st st2 ips hl
      have hpnOld : pn = vOld := by
        rw [hold] at hpn
        exact (Except.ok.inj hpn).symm
      subst hpnOld
      obtain ⟨n, d, whOld, ncwh, u, sec, hn, _, _, _, _, _, _, he2⟩ :=
        PluginConfig.update_entry_fields e nc e2 ips hup
      have hnNew : n = vNew := by
        rw [hnew] at hn
        exact (Except.ok.inj hn).symm
      subst hnNew
      have hname2 : PluginConfig.entryName e2 = some n := by
        rw [he2]
        unfold PluginConfig.entryName
        rw [lookup_setKey_ne _ _ _ _ (by decide),
          lookup_setKey_ne _ _ _ _ (by decide),
          lookup_setKey_self]
      have hname1 : PluginConfig.entryName e = some pn :=
        (PluginConfig.dget_ok_iff e "name" pn).mp hename
      unfold PluginConfig.NamesDistinct at hd ⊢
      rw [hst] at hd
      rw [hst2]
      rw [List.map_append, List.map_cons] at hd ⊢
      rw [hname1] at hd
      rw [hname2]
      rcases hside with heq | hall
      · rw [heq]
        exact hd
      · rw [(List.perm_middle).nodup_iff] at hd ⊢
        rw [List.nodup_cons] at hd ⊢
        refine ⟨?_, hd.2⟩
        intro hmem
        rcases List.mem_append.mp hmem with hmem | hmem
        · obtain ⟨e', he', hee⟩ := List.mem_map.mp hmem
          exact hall e' (by rw [hst]; exact List.mem_append_left _ he') hee
        · obtain ⟨e', he', hee⟩ := List.mem_map.mp hmem
          exact hall e'
            (by rw [hst]
                exact List.mem_append_right _ (List.mem_cons_of_mem e he'))
            hee

/-- C2, witness: deleting `a` from the distinct collection `[a, b]`
keeps the names distinct. -/
theorem C2_witness :
    PluginConfig.NamesDistinct [sampleA, sampleB] ∧
    (∃ r, PluginConfig.delete [sampleA, sampleB] "a" = Except.ok r ∧
      PluginConfig.NamesDistinct r.st) := by
  refine ⟨by decide, ⟨⟨true, [sampleB], some [sampleB]⟩, rfl, ?_⟩⟩
  exact C2_amended.2.1 [sampleA, sampleB] "a" _ rfl (by decide)

/-! ## Helper lemmas for `load_config` -/

namespace PluginConfig

/-- Every record produced by the route loop comes from applying
`add_safe_url` to a surviving record. -/
theorem addRoutes_mem :
    ∀ (l st : List Dict), addRoutes l = Except.ok st →
      ∀ e2 ∈ st, ∃ e ∈ l, add_safe_url e = Except.ok e2 := by
  intro l
  induction l with
  | nil =>
      intro st h e2 he2
      unfold addRoutes at h
      rw [← Except.ok.inj h] at he2
      exact absurd he2 (List.not_mem_nil e2)
  | cons e rest ih =>
      intro st h e2 he2
      unfold addRoutes at h
      split at h
      · exact Except.noConfusion h
      · rename_i e1 h1
        split at h
        · exact Except.noConfusion h
        · rename_i rest2 h2
          rw [← Except.ok.inj h] at he2
          rcases List.mem_cons.mp he2 with rfl | hmem
          · exact ⟨e, List.mem_cons_self e rest, h1⟩
          · obtain ⟨e', he', heq⟩ := ih rest2 h2 e2 hmem
            exact ⟨e', List.mem_cons_of_mem e he', heq⟩

/-- `d[k]` on an inner mapping succeeds with `v` exactly when the key
is bound to `v`. -/
theorem lget_ok_iff (m : LDict) (k : String) (v : Leaf) :
    lget m k = Except.ok v ↔ lookup m k = some v := by
  unfold lget
  cases h : lookup m k <;> simp

/-- Characterization of `add_safe_url`: the record had a string `name`
and a webhook mapping with a string `url`, and the result stores the
derived safe URL under `webhook['safe_url']`, leaving everything else
in place. -/
theorem add_safe_url_spec (e e2 : Dict)
    (h : add_safe_url e = Except.ok e2) :
    ∃ n wh u, lookup e "name" = some (Val.leaf (Leaf.s n)) ∧
      lookup e "webhook" = some (Val.dict wh) ∧
      lookup wh "url" = some (Leaf.s u) ∧
      e2 = setKey e "webhook"
        (Val.dict (setKey wh "safe_url" (Leaf.s (mk_safe_url n u)))) := by
  unfold add_safe_url at h
  split at h
  · exact Except.noConfusion h
  · rename_i nv hnv
    split at h
    · exact Except.noConfusion h
    · rename_i n hn
      cases nv with
      | dict m => exact Except.noConfusion hn
      | leaf l =>
          cases l with
          | strs l2 => exact Except.noConfusion hn
          | s ns =>
              have hns : ns = n := Except.ok.inj hn
              subst hns
              split at h
              · exact Except.noConfusion h
              · rename_i whv hwhv
                split at h
                · exact Except.noConfusion h
                · rename_i wh ha
                  cases whv with
                  | leaf l => exact Except.noConfusion ha
                  | dict m =>
                      have hm : m = wh := Except.ok.inj ha
                      subst hm
                      split at h
                      · exact Except.noConfusion h
                      · rename_i uv huv
                        split at h
                        · exact Except.noConfusion h
                        · rename_i u hu
                          cases uv with
                          | strs l2 => exact Except.noConfusion hu
                          | s us =>
                              have hus : us = u := Except.ok.inj hu
                              subst hus
                              exact ⟨ns, m, us,
                                (dget_ok_iff _ _ _).mp hnv,
                                (dget_ok_iff _ _ _).mp hwhv,
                                (lget_ok_iff _ _ _).mp huv,
                                (Except.ok.inj h).symm⟩

end PluginConfig

/-! ## Claim C6 — the safe_url derivation -/

/-- C6: the `safe_url` derivation is a deterministic function of
`name` and `webhook.url` (computing it twice yields the same string);
it equals the spec's composed pipeline — percent-encode the
hash-stripped, underscore-for-space, lowercased path built from the
two values; and `load_config` stores exactly this derived value under
`webhook['safe_url']` for every surviving record. -/
theorem C6_safe_url :
    (∀ n u, mk_safe_url n u = mk_safe_url n u) ∧
    (∀ n u, mk_safe_url n u = spec_safe_url n u) ∧
    (∀ doc st, PluginConfig.load_config doc = Except.ok st →
      ∀ e2 ∈ st, ∃ n u wh2,
        lookup e2 "name" = some (Val.leaf (Leaf.s n)) ∧
        lookup e2 "webhook" = some (Val.dict wh2) ∧
        lookup wh2 "url" = some (Leaf.s u) ∧
        lookup wh2 "safe_url" = some (Leaf.s (mk_safe_url n u))) := by
  refine ⟨fun n u => rfl, fun n u => rfl, ?_⟩
  intro doc st h e2 he2
  obtain ⟨e, he, heq⟩ :=
    PluginConfig.addRoutes_mem (PluginConfig.validate_plugins doc) st h
      e2 he2
  obtain ⟨n, wh, u, hn, hw, hu, he2eq⟩ :=
    PluginConfig.add_safe_url_spec e e2 heq
  subst he2eq
  refine ⟨n, u, setKey wh "safe_url" (Leaf.s (mk_safe_url n u)),
    ?_, lookup_setKey_self _ _ _, ?_, lookup_setKey_self _ _ _⟩
  · rw [lookup_setKey_ne _ _ _ _ (by decide)]
    exact hn
  · rw [lookup_setKey_ne _ _ _ _ (by decide)]
    exact hu

/-- The sample record as `load_config` leaves it: `safe_url` derived
from name `a` and url `ua`. -/
def sampleALoaded : Dict :=
  [("name", Val.leaf (Leaf.s "a")), ("description", Val.leaf (Leaf.s "da")),
   ("webhook", Val.dict [("url", Leaf.s "ua"), ("secret", Leaf.s "sa"),
     ("allowed-ip", Leaf.strs ["1.2.3.4"]),
     ("safe_url", Leaf.s "/plugin/a/ua")])]

/-- C6, witness: the pipeline equality on a name with a space and a
url with a hash, and the load property on a concrete one-record
document. -/
theorem C6_witness :
    mk_safe_url "My Plugin" "hook#1" = spec_safe_url "My Plugin" "hook#1" ∧
    ∃ n u wh2,
      lookup sampleALoaded "name" = some (Val.leaf (Leaf.s n)) ∧
      lookup sampleALoaded "webhook" = some (Val.dict wh2) ∧
      lookup wh2 "url" = some (Leaf.s u) ∧
      lookup wh2 "safe_url" = some (Leaf.s (mk_safe_url n u)) := by
  refine ⟨C6_safe_url.2.1 "My Plugin" "hook#1", ?_⟩
  exact C6_safe_url.2.2 [sampleA] [sampleALoaded] rfl sampleALoaded
    (List.mem_singleton.mpr rfl)

/-! ## Claim C7 — safe_url is derived-only, but it is persisted -/

/-- C7, counterexample: the claim says the persisted plugin document
never contains a `safe_url` field. After loading a one-record document
and then successfully registering a second plugin, the document handed
to the YAML dump is the whole in-memory collection — whose first
record's webhook still carries the `safe_url` computed at load. -/
theorem C7_counterexample :
    PluginConfig.load_config [sampleA] = Except.ok [sampleALoaded] ∧
    PluginConfig.register [sampleALoaded] sampleB =
      Except.ok ⟨true, [sampleALoaded, sampleB],
        some [sampleALoaded, sampleB]⟩ ∧
    ∃ wh, lookup sampleALoaded "webhook" = some (Val.dict wh) ∧
      lookup wh "safe_url" = some (Leaf.s "/plugin/a/ua") :=
  ⟨rfl, rfl, ⟨_, rfl, rfl⟩⟩

/-- C7, amended: `safe_url` is never accepted from a caller's input —
the record a successful `register` appends has no `safe_url` key
regardless of the input, and `update` carries the stored record's
`safe_url` over unchanged, ignoring any caller-supplied value. The
persisted document, however, retains the `safe_url` computed at load
for previously loaded records (see the counterexample). -/
theorem C7_amended :
    (∀ st config r, PluginConfig.register st config = Except.ok r →
      r.ok = true →
      ∃ entry, r.st = st ++ [entry] ∧
        r.written = some (st ++ [entry]) ∧
        ∃ whNew, lookup entry "webhook" = some (Val.dict whNew) ∧
          lookup whNew "safe_url" = none) ∧
    (∀ e nc e2 ips whOld whNew,
      PluginConfig.update_entry e nc = Except.ok (e2, ips) →
      lookup e "webhook" = some (Val.dict whOld) →
      lookup e2 "webhook" = some (Val.dict whNew) →
      lookup whNew "safe_url" = lookup whOld "safe_url") := by
  constructor
  · intro st config r h hok
    obtain ⟨n, d, wh, u, sec, ips, _, _, _, _, _, _, _, _, hr⟩ :=
      PluginConfig.register_ok_true st config r h hok
    subst hr
    exact ⟨PluginConfig.mkEntry n d u sec ips, rfl, rfl, ⟨_, rfl, rfl⟩⟩
  · intro e nc e2 ips whOld whNew hup hwhOld hwhNew
    obtain ⟨n, d, whOld', ncwh, u, sec, _, _, hwh', _, _, _, _, he2⟩ :=
      PluginConfig.update_entry_fields e nc e2 ips hup
    have h0 : lookup e "webhook" = some (Val.dict whOld') :=
      (PluginConfig.dget_ok_iff e "webhook" (Val.dict whOld')).mp hwh'
    rw [h0] at hwhOld
    have h1 : whOld' = whOld := Val.dict.inj (Option.some.inj hwhOld)
    have h2 : lookup e2 "webhook" = some (Val.dict
        (setKey (setKey (setKey whOld' "url" u) "secret" sec)
          "allowed-ip" (Leaf.strs ips))) := by
      rw [he2]
      exact lookup_setKey_self _ _ _
    rw [h2] at hwhNew
    have h3 : whNew = setKey (setKey (setKey whOld' "url" u) "secret" sec)
        "allowed-ip" (Leaf.strs ips) :=
      (Val.dict.inj (Option.some.inj hwhNew)).symm
    rw [h3, lookup_setKey_ne _ _ _ _ (by decide),
      lookup_setKey_ne _ _ _ _ (by decide),
      lookup_setKey_ne _ _ _ _ (by decide), h1]

/-- C7, witness: registering after a load appends a record whose
webhook has no `safe_url` key. -/
theorem C7_witness :
    ∃ entry, [sampleALoaded, sampleB] = [sampleALoaded] ++ [entry] ∧
      some [sampleALoaded, sampleB] = some ([sampleALoaded] ++ [entry]) ∧
      ∃ whNew, lookup entry "webhook" = some (Val.dict whNew) ∧
        lookup whNew "safe_url" = none := by
  have h : PluginConfig.register [sampleALoaded] sampleB =
      Except.ok ⟨true, [sampleALoaded, sampleB],
        some [sampleALoaded, sampleB]⟩ := rfl
  exact C7_amended.1 [sampleALoaded] sampleB _ h rfl

end CoreService
